import Mathlib

/-!
Verification of the GCP Secret Manager secret-service plugin
(`pkg/plugins/secret/secret_manager/secret_manager.go`).

The plugin's functions are embedded as pure Lean functions over an explicit
state.  The external GCP Secret Manager client (an out-of-scope collaborator
of the plugin, consumed through `ListSecrets`, `AddSecretVersion` and
`AccessSecretVersion`) is modelled as a deterministic state `Backend`
exposing exactly the three capabilities the plugin calls; each service
operation additionally returns the list of backend calls it performed, so
that claims about "no backend call" are statements about that trace.
-/

set_option autoImplicit false

namespace SecretManager

/-- Secret payload bytes (Go `[]byte`); each element stands for one byte. -/
abbrev Bytes := List Nat

/-- Go `secret.Secret` (package `pkg/plugins/secret`, not under `src/`).
Modelled from the spec: a Secret is "identified by `Name`" and the exposed
contract is `Put(Secret{Name}, []byte)`, so the struct carries only `Name`. -/
structure Secret where
  name : String
deriving DecidableEq, Repr

/-- Go `secret.SecretVersion` (package `pkg/plugins/secret`, not under `src/`).
Modelled from the spec: identified by `(Secret, Version)`.  The Go field
`Secret` is a pointer, so it is an `Option` here (`none` = nil pointer). -/
structure SecretVersion where
  secret : Option Secret
  version : String
deriving DecidableEq, Repr

/-- Go `secret.SecretPutResponse` (not under `src/`).  Modelled from the spec:
`Put` returns `SecretPutResponse{SecretVersion{Secret{Name}, Version}}`. -/
structure SecretPutResponse where
  secretVersion : SecretVersion
deriving DecidableEq, Repr

/-- Go `secret.SecretAccessResponse` (not under `src/`).  Modelled from the
spec: `Access` returns `SecretAccessResponse{SecretVersion, Value []byte}`. -/
structure SecretAccessResponse where
  secretVersion : Option SecretVersion
  value : Bytes
deriving DecidableEq, Repr

/-- The error codes of `pkg/plugins/errors/codes` actually used by this
plugin (`codes.InvalidArgument` and `codes.Internal`). -/
inductive Code
  | InvalidArgument
  | Internal
deriving DecidableEq, Repr

/-- Low-level (unwrapped) error values produced before the service wraps
them: the `fmt.Errorf` validation errors, the grpc `NotFound` status raised
by `getSecret`, and the possible RPC failures of the three backend calls. -/
inductive GErr
  | nilSecret        -- "provide non-nil secret"
  | blankSecretName  -- "provide non-blank secret name"
  | blankSecretValue -- "provide non-blank secret value"
  | blankName        -- "provide non-blank name"
  | blankVersion     -- "provide non-blank version"
  | notFound         -- status.Error(grpcCodes.NotFound, "secret not found")
  | listRpc          -- iterator.Next failure other than iterator.Done
  | addRpc           -- AddSecretVersion RPC failure
  | accessRpc        -- AccessSecretVersion RPC failure
deriving DecidableEq, Repr

/-- A wrapped plugin error, as produced by `errors.ErrorsWithScope`:
the taxonomy code, the wrapping message, and the underlying cause. -/
structure PErr where
  code : Code
  msg : String
  cause : GErr
deriving DecidableEq, Repr

/-- Outcome of a Go function returning `(T, error)`, plus the possibility
of a runtime panic (nil-pointer dereference). -/
inductive Res (ε α : Type)
  | ok (a : α)
  | err (e : ε)
  | panic
deriving DecidableEq, Repr

/-- The backend calls a service operation can perform, recorded as a trace.
Note there is no create-container call: `secret_manager.go` never calls the
provider's `CreateSecret`. -/
inductive BCall
  | listSecrets
  | addSecretVersion
  | accessSecretVersion
deriving DecidableEq, Repr

/-- One secret container as held by the backend: its two nitric labels
(`x-nitric-name`, `x-nitric-stack`) and its provider resource name. -/
structure Container where
  nitricName : String
  nitricStack : String
  resourceName : String
deriving DecidableEq, Repr

/-- Model of the external GCP Secret Manager service (the out-of-scope
collaborator of spec section 6): the containers visible to `ListSecrets`,
the stored versions (full resource name, payload) visible to
`AccessSecretVersion`, the stream of provider-assigned opaque version ids
(head = next id; an empty stream makes `AddSecretVersion` fail, modelling
an RPC failure), and a flag making `ListSecrets`' iterator fail. -/
structure Backend where
  containers : List Container
  versions : List (String × Bytes)
  versionIds : List String
  listOk : Bool
deriving DecidableEq, Repr

/-- Backend capability: first result of `ListSecrets` under the label
filter `labels.x-nitric-name=<name> AND labels.x-nitric-stack=<stack>`
(the code consumes only `iter.Next()` once), or `none` for `iterator.Done`. -/
def Backend.listSecretsFirst (b : Backend) (name stack : String) : Option String :=
  (b.containers.find? fun c => c.nitricName == name && c.nitricStack == stack).map
    (fun c => c.resourceName)

/-- Backend capability: `AddSecretVersion(parent, payload)`.  The provider
assigns the next opaque id and returns the new version's full resource name
`<parent>/versions/<id>`; `none` models an RPC failure. -/
def Backend.addSecretVersion (b : Backend) (parent : String) (data : Bytes) :
    Option (String × Backend) :=
  match b.versionIds with
  | [] => none
  | id :: rest =>
    let name := parent ++ "/versions/" ++ id
    some (name, { b with versions := (name, data) :: b.versions, versionIds := rest })

/-- Backend capability: `AccessSecretVersion(name)` returns the payload of
the named version, or `none` (an RPC error) when it does not exist. -/
def Backend.accessSecretVersion (b : Backend) (name : String) : Option Bytes :=
  b.versions.lookup name

/-- The fields of `secretManagerSecretService` used by the operations:
`projectId`, `stackName`, the resolution cache `cache map[string]string`
(an association list: the first binding of a key is its value), and the
backend reachable through `client`. -/
structure SvcState where
  projectId : String
  stackName : String
  cache : List (String × String)
  backend : Backend
deriving DecidableEq, Repr

/-- Result of a plugin-internal call: its outcome, the service state after
the call, and the trace of backend calls performed. -/
structure Step (ε α : Type) where
  res : Res ε α
  st : SvcState
  calls : List BCall
deriving DecidableEq, Repr

/-- Result of `getSecret`, which returns `(T, error)` and cannot panic. -/
structure GOut where
  res : Except GErr String
  st : SvcState
  calls : List BCall
deriving Repr

/-- Go `validateNewSecret` (secret_manager.go:44-56): nil secret, then blank
name, then blank value; `none` means valid. -/
def validateNewSecret (sec : Option Secret) (val : Bytes) : Option GErr :=
  match sec with
  | none => some .nilSecret
  | some s =>
    if s.name = "" then some .blankSecretName
    else if val = [] then some .blankSecretValue
    else none

/-- Go `getParentName` (secret_manager.go:58-60). -/
def getParentName (st : SvcState) : String :=
  "projects/" ++ st.projectId

/-- Go `getSecret` (secret_manager.go:85-103): one `ListSecrets` call filtered
by the name and stack labels; `iterator.Done` becomes a grpc `NotFound`,
any other iterator failure is returned as is, and on success the first
result's resource name is written to the cache and returned.  It never
creates a container. -/
def getSecret (st : SvcState) (secName : String) : GOut :=
  if st.backend.listOk then
    match st.backend.listSecretsFirst secName st.stackName with
    | none => ⟨.error .notFound, st, [.listSecrets]⟩
    | some rn =>
      ⟨.ok rn, { st with cache := (secName, rn) :: st.cache }, [.listSecrets]⟩
  else
    ⟨.error .listRpc, st, [.listSecrets]⟩

/-- Go `buildSecretVersionName` (secret_manager.go:62-82).  The very first
statement dereferences `sv.Secret.Name`, so a nil `sv` or nil `sv.Secret`
panics before any validation.  Then: blank-name and blank-version checks,
the cache lookup, the `getSecret` fallback on a miss, and the
`<parent>/versions/<version>` concatenation. -/
def buildSecretVersionName (st : SvcState) (sv : Option SecretVersion) :
    Step GErr String :=
  match sv with
  | none => ⟨.panic, st, []⟩
  | some v =>
    match v.secret with
    | none => ⟨.panic, st, []⟩
    | some sec =>
      if sec.name = "" then ⟨.err .blankName, st, []⟩
      else if v.version = "" then ⟨.err .blankVersion, st, []⟩
      else
        match List.lookup sec.name st.cache with
        | some parent => ⟨.ok (parent ++ "/versions/" ++ v.version), st, []⟩
        | none =>
          match getSecret st sec.name with
          | ⟨.error e, st1, c⟩ => ⟨.err e, st1, c⟩
          | ⟨.ok rn, st1, c⟩ => ⟨.ok (rn ++ "/versions/" ++ v.version), st1, c⟩

/-- Go `strings.Split` on `'/'` (Go semantics: `Split("", "/") = [""]`). -/
def splitSlash : List Char → List (List Char)
  | [] => [[]]
  | c :: cs =>
    match splitSlash cs with
    | [] => [[]]
    | h :: t => if c = '/' then [] :: h :: t else (c :: h) :: t

/-- Go `versionStringParts[len(versionStringParts)-1]` after
`strings.Split(verResult.Name, "/")` (secret_manager.go:146-147). -/
def lastSegment (s : String) : String :=
  String.mk ((splitSlash s.data).getLastD [])

/-- Go `Put` (secret_manager.go:106-157): validate, ensure the container
exists via `getSecret` (wrapping failure as `Internal`; note no creation
happens on `NotFound`), add a version (failure wrapped as `Internal`), and
return `{secret: {name}, version: lastSegment}`.  The `none` case after a
passed validation is the unreachable nil dereference. -/
def Put (st : SvcState) (sec : Option Secret) (val : Bytes) :
    Step PErr SecretPutResponse :=
  match validateNewSecret sec val with
  | some e => ⟨.err ⟨.InvalidArgument, "invalid secret", e⟩, st, []⟩
  | none =>
    match sec with
    | none => ⟨.panic, st, []⟩
    | some sec0 =>
      match getSecret st sec0.name with
      | ⟨.error e, st1, c⟩ =>
        ⟨.err ⟨.Internal, "error ensuring secret container exists", e⟩, st1, c⟩
      | ⟨.ok parentName, st1, c⟩ =>
        match st1.backend.addSecretVersion parentName val with
        | none =>
          ⟨.err ⟨.Internal, "failed to add new secret version", .addRpc⟩,
            st1, c ++ [.addSecretVersion]⟩
        | some (verName, b2) =>
          ⟨.ok ⟨⟨some ⟨sec0.name⟩, lastSegment verName⟩⟩,
            { st1 with backend := b2 }, c ++ [.addSecretVersion]⟩

/-- Go `Access` (secret_manager.go:160-195): build the fully qualified version
name (any failure of `buildSecretVersionName` — including `getSecret`'s
`NotFound` — is wrapped as `InvalidArgument`), fetch the payload (failure
wrapped as `Internal`), and return the original `sv` with the raw bytes. -/
def Access (st : SvcState) (sv : Option SecretVersion) :
    Step PErr SecretAccessResponse :=
  match buildSecretVersionName st sv with
  | ⟨.panic, st1, c⟩ => ⟨.panic, st1, c⟩
  | ⟨.err e, st1, c⟩ => ⟨.err ⟨.InvalidArgument, "invalid secret version", e⟩, st1, c⟩
  | ⟨.ok fullName, st1, c⟩ =>
    match st1.backend.accessSecretVersion fullName with
    | none =>
      ⟨.err ⟨.Internal, "failed to access secret version", .accessRpc⟩,
        st1, c ++ [.accessSecretVersion]⟩
    | some data => ⟨.ok ⟨sv, data⟩, st1, c ++ [.accessSecretVersion]⟩

/-- The substring after the last `'/'` of a string (the whole string when
it has no `'/'`).  This follows the spec's words — "the trailing path
segment of the returned resource name" — independently of the code's
`strings.Split` implementation, for comparison with `lastSegment`. -/
def afterLastSlash : List Char → List Char
  | [] => []
  | c :: cs => if '/' ∈ cs then afterLastSlash cs else if c = '/' then cs else c :: cs

/-- Spec-side trailing path segment, on strings. -/
def afterLastSlashStr (s : String) : String :=
  String.mk (afterLastSlash s.data)

/-- Well-formedness of the modelled provider: the opaque version ids it
assigns are non-empty and contain no `'/'` (a real Secret Manager version
id is a decimal number). -/
def Backend.WF (b : Backend) : Prop :=
  ∀ id ∈ b.versionIds, id ≠ "" ∧ '/' ∉ id.data

/-- An empty deployment: no containers, no versions, the provider would
assign id "1" to the first created version. -/
def stEmpty : SvcState :=
  ⟨"p", "dev", [], ⟨[], [], ["1"], true⟩⟩

/-- A deployment holding one container labelled `db-pass`/`dev` with
resource name `projects/p/secrets/s1`; the cache is still cold. -/
def stOne : SvcState :=
  ⟨"p", "dev", [],
    ⟨[⟨"db-pass", "dev", "projects/p/secrets/s1"⟩], [], ["17", "18"], true⟩⟩

/-- State `stOne` after its container has been resolved into the cache. -/
def stOneCached : SvcState :=
  ⟨"p", "dev", [("db-pass", "projects/p/secrets/s1")],
    ⟨[⟨"db-pass", "dev", "projects/p/secrets/s1"⟩], [], ["17", "18"], true⟩⟩

/-- State `stOne` after `Put {db-pass} [115, 51]`: the resolution is cached, the
version `projects/p/secrets/s1/versions/17` holds the payload, and the next
provider id is "18". -/
def stOnePut : SvcState :=
  ⟨"p", "dev", [("db-pass", "projects/p/secrets/s1")],
    ⟨[⟨"db-pass", "dev", "projects/p/secrets/s1"⟩],
      [("projects/p/secrets/s1/versions/17", [115, 51])], ["18"], true⟩⟩

/-- A state whose cache already holds an unrelated entry `("a", "ra")`,
over the `stOne` backend. -/
def stOneExtra : SvcState :=
  ⟨"p", "dev", [("a", "ra")],
    ⟨[⟨"db-pass", "dev", "projects/p/secrets/s1"⟩], [], ["17", "18"], true⟩⟩

end SecretManager

namespace SecretManager

/-! Lemmas about the path-segment functions -/

theorem splitSlash_ne_nil (l : List Char) : splitSlash l ≠ [] := by
  cases l with
  | nil => simp [splitSlash]
  | cons c cs =>
    unfold splitSlash
    cases h : splitSlash cs with
    | nil => simp
    | cons hd tl => dsimp; split <;> simp

theorem splitSlash_of_not_mem (l : List Char) (h : '/' ∉ l) :
    splitSlash l = [l] := by
  induction l with
  | nil => simp [splitSlash]
  | cons c cs ih =>
    have hc : c ≠ '/' := fun hc => h (hc ▸ List.mem_cons_self c cs)
    have hcs : '/' ∉ cs := fun hm => h (List.mem_cons_of_mem c hm)
    unfold splitSlash
    rw [ih hcs]
    simp [hc]

theorem splitSlash_singleton (l x : List Char) (h : splitSlash l = [x]) :
    x = l ∧ '/' ∉ l := by
  induction l generalizing x with
  | nil =>
    simp [splitSlash] at h
    simp [h]
  | cons c cs ih =>
    unfold splitSlash at h
    cases hs : splitSlash cs with
    | nil => exact absurd hs (splitSlash_ne_nil cs)
    | cons hd tl =>
      rw [hs] at h
      by_cases hc : c = '/'
      · simp [hc] at h
      · simp only [if_neg hc] at h
        injection h with h1 h2
        subst h2
        obtain ⟨hhd, hmem⟩ := ih hd hs
        subst hhd
        constructor
        · exact h1.symm
        · intro hm
          rcases List.mem_cons.mp hm with hm | hm
          · exact hc hm.symm
          · exact hmem hm

theorem afterLastSlash_of_not_mem (l : List Char) (h : '/' ∉ l) :
    afterLastSlash l = l := by
  induction l with
  | nil => rfl
  | cons c cs ih =>
    have hc : c ≠ '/' := fun hc => h (hc ▸ List.mem_cons_self c cs)
    have hcs : '/' ∉ cs := fun hm => h (List.mem_cons_of_mem c hm)
    unfold afterLastSlash
    simp [hcs, hc]

theorem getLastD_splitSlash (l : List Char) :
    (splitSlash l).getLastD [] = afterLastSlash l := by
  induction l with
  | nil => rfl
  | cons c cs ih =>
    unfold splitSlash afterLastSlash
    cases h : splitSlash cs with
    | nil => exact absurd h (splitSlash_ne_nil cs)
    | cons hd tl =>
      rw [h] at ih
      dsimp only
      by_cases hc : c = '/'
      · rw [if_pos hc, if_pos hc]
        rw [List.getLastD_cons, ih]
        by_cases hm : '/' ∈ cs
        · rw [if_pos hm]
        · rw [if_neg hm, afterLastSlash_of_not_mem cs hm]
      · rw [if_neg hc, if_neg hc]
        cases tl with
        | nil =>
          obtain ⟨hhd, hmem⟩ := splitSlash_singleton cs hd h
          subst hhd
          rw [if_neg hmem, List.getLastD_cons]
          rfl
        | cons y ys =>
          have hm : '/' ∈ cs := by
            by_contra hm
            rw [splitSlash_of_not_mem cs hm] at h
            simp at h
          rw [if_pos hm]
          rw [List.getLastD_cons] at ih ⊢
          rw [List.getLastD_cons] at ih ⊢
          exact ih

theorem afterLastSlash_append (xs ys : List Char) (h : '/' ∉ ys) :
    afterLastSlash (xs ++ '/' :: ys) = ys := by
  induction xs with
  | nil => simp [afterLastSlash, h]
  | cons x xs ih =>
    unfold afterLastSlash
    have hm : '/' ∈ xs ++ '/' :: ys := List.mem_append_right xs (List.mem_cons_self _ _)
    simp only [List.cons_append, hm, if_pos]
    exact ih

/-- The code's `strings.Split`-based extraction agrees with the spec's
"substring after the last '/'" on every string. -/
theorem lastSegment_eq_afterLastSlashStr (s : String) :
    lastSegment s = afterLastSlashStr s := by
  unfold lastSegment afterLastSlashStr
  rw [getLastD_splitSlash]

theorem lastSegment_versions (p id : String) (h : '/' ∉ id.data) :
    lastSegment (p ++ "/versions/" ++ id) = id := by
  unfold lastSegment
  rw [getLastD_splitSlash]
  have hv : ("/versions/" : String).data
      = ['/', 'v', 'e', 'r', 's', 'i', 'o', 'n', 's', '/'] := rfl
  have hdata : (p ++ "/versions/" ++ id).data
      = (p.data ++ ['/', 'v', 'e', 'r', 's', 'i', 'o', 'n', 's']) ++ '/' :: id.data := by
    rw [String.data_append, String.data_append, hv]
    simp
  rw [hdata, afterLastSlash_append _ _ h]

/-! Lemmas about the plugin-internal helpers -/

theorem validateNewSecret_none (s : Secret) (v : Bytes)
    (h : validateNewSecret (some s) v = none) : s.name ≠ "" ∧ v ≠ [] := by
  unfold validateNewSecret at h
  dsimp only at h
  constructor
  · intro hn
    rw [if_pos hn] at h
    cases h
  · intro hv
    by_cases hn : s.name = ""
    · rw [if_pos hn] at h
      cases h
    · rw [if_neg hn, if_pos hv] at h
      cases h

theorem getSecret_ok (st : SvcState) (n rn : String) (st1 : SvcState) (c : List BCall)
    (h : getSecret st n = ⟨.ok rn, st1, c⟩) :
    st.backend.listOk = true
      ∧ st.backend.listSecretsFirst n st.stackName = some rn
      ∧ st1 = { st with cache := (n, rn) :: st.cache }
      ∧ c = [.listSecrets] := by
  unfold getSecret at h
  split at h
  · split at h
    · cases h
    · simp only [GOut.mk.injEq] at h
      obtain ⟨h1, h2, h3⟩ := h
      injection h1 with h1
      subst h1
      exact ⟨by assumption, by assumption, h2.symm, h3.symm⟩
  · simp only [GOut.mk.injEq] at h
    cases h.1

theorem getSecret_err (st : SvcState) (n : String) (e : GErr) (st1 : SvcState)
    (c : List BCall) (h : getSecret st n = ⟨.error e, st1, c⟩) :
    st1 = st ∧ c = [.listSecrets] := by
  unfold getSecret at h
  split at h
  · split at h
    · simp only [GOut.mk.injEq] at h
      exact ⟨h.2.1.symm, h.2.2.symm⟩
    · cases h
  · simp only [GOut.mk.injEq] at h
    exact ⟨h.2.1.symm, h.2.2.symm⟩

theorem getSecret_calls (st : SvcState) (n : String) :
    (getSecret st n).calls = [.listSecrets] := by
  unfold getSecret
  split
  · split <;> rfl
  · rfl

theorem addSecretVersion_some (b : Backend) (p : String) (v : Bytes)
    (nm : String) (b2 : Backend) (h : b.addSecretVersion p v = some (nm, b2)) :
    ∃ id rest, b.versionIds = id :: rest
      ∧ nm = p ++ "/versions/" ++ id
      ∧ b2 = { b with versions := (nm, v) :: b.versions, versionIds := rest } := by
  unfold Backend.addSecretVersion at h
  split at h
  · cases h
  · injection h with h
    injection h with h1 h2
    subst h1
    subst h2
    exact ⟨_, _, by assumption, rfl, rfl⟩

theorem lookup_cons_isSome (k n rn : String) (c : List (String × String))
    (h : (List.lookup k c).isSome) : (List.lookup k ((n, rn) :: c)).isSome := by
  rw [List.lookup_cons]
  split
  · rfl
  · exact h

/-- Full characterisation of a successful `Put`: the validation passed, one
`ListSecrets` found the container `parent`, the provider assigned the next
id, the version was stored, the cache gained the resolution, and the
response carries exactly the name and the trailing segment of the returned
resource name. -/
theorem Put_ok_spec (st : SvcState) (sec : Option Secret) (val : Bytes)
    (resp : SecretPutResponse) (st' : SvcState) (tr : List BCall)
    (h : Put st sec val = ⟨.ok resp, st', tr⟩) :
    ∃ sec0 parent id rest,
      sec = some sec0 ∧ sec0.name ≠ "" ∧ val ≠ []
      ∧ st.backend.listOk = true
      ∧ st.backend.listSecretsFirst sec0.name st.stackName = some parent
      ∧ st.backend.versionIds = id :: rest
      ∧ resp = ⟨⟨some ⟨sec0.name⟩, lastSegment (parent ++ "/versions/" ++ id)⟩⟩
      ∧ st' = { st with
          cache := (sec0.name, parent) :: st.cache,
          backend := { st.backend with
            versions := (parent ++ "/versions/" ++ id, val) :: st.backend.versions,
            versionIds := rest } }
      ∧ tr = [.listSecrets, .addSecretVersion] := by
  unfold Put at h
  split at h
  · cases h
  case h_2 hval =>
    split at h
    · simp [validateNewSecret] at hval
    case h_2 sec0 =>
      split at h
      · cases h
      case h_2 parentName st1 c hget =>
        obtain ⟨hlok, hfirst, hst1, hc⟩ := getSecret_ok st sec0.name parentName st1 c hget
        split at h
        · cases h
        case h_2 verName b2 hadd =>
          rw [hst1] at hadd
          obtain ⟨id, rest, hids, hnm, hb2⟩ := addSecretVersion_some _ _ _ _ _ hadd
          simp only [Step.mk.injEq] at h
          obtain ⟨h1, h2, h3⟩ := h
          injection h1 with h1
          obtain ⟨hname, hval0⟩ := validateNewSecret_none sec0 val hval
          refine ⟨sec0, parentName, id, rest, rfl, hname, hval0, hlok, hfirst, hids, ?_, ?_, ?_⟩
          · rw [← h1, hnm]
          · rw [← h2, hst1, hb2, hnm]
          · rw [← h3, hc]
            rfl

theorem getSecret_eq_ok (st : SvcState) (n rn : String)
    (hl : st.backend.listOk = true)
    (hf : st.backend.listSecretsFirst n st.stackName = some rn) :
    getSecret st n
      = ⟨.ok rn, { st with cache := (n, rn) :: st.cache }, [.listSecrets]⟩ := by
  unfold getSecret
  rw [hl, hf]
  rw [if_pos rfl]

theorem addSecretVersion_eq (b : Backend) (p : String) (v : Bytes) (id : String)
    (rest : List String) (hids : b.versionIds = id :: rest) :
    b.addSecretVersion p v
      = some (p ++ "/versions/" ++ id,
          { b with versions := (p ++ "/versions/" ++ id, v) :: b.versions,
                   versionIds := rest }) := by
  unfold Backend.addSecretVersion
  rw [hids]

theorem build_cache_monotone (st : SvcState) (sv : Option SecretVersion) (k : String)
    (h : (List.lookup k st.cache).isSome) :
    (List.lookup k (buildSecretVersionName st sv).st.cache).isSome := by
  cases sv with
  | none => exact h
  | some v =>
    obtain ⟨osec, ver⟩ := v
    cases osec with
    | none => exact h
    | some sec =>
      unfold buildSecretVersionName
      dsimp only
      by_cases h1 : sec.name = ""
      · rw [if_pos h1]
        exact h
      · rw [if_neg h1]
        by_cases h2 : ver = ""
        · rw [if_pos h2]
          exact h
        · rw [if_neg h2]
          cases hl : List.lookup sec.name st.cache with
          | some parent => exact h
          | none =>
            dsimp only
            cases hg : getSecret st sec.name with
            | mk res st1 c =>
              cases res with
              | error e =>
                dsimp only
                rw [(getSecret_err _ _ _ _ _ hg).1]
                exact h
              | ok rn =>
                dsimp only
                rw [(getSecret_ok _ _ _ _ _ hg).2.2.1]
                exact lookup_cons_isSome k sec.name rn st.cache h

theorem build_err_st (st : SvcState) (sv : Option SecretVersion) (e : GErr)
    (st1 : SvcState) (c : List BCall)
    (h : buildSecretVersionName st sv = ⟨.err e, st1, c⟩) : st1 = st := by
  cases sv with
  | none => cases h
  | some v =>
    obtain ⟨osec, ver⟩ := v
    cases osec with
    | none => cases h
    | some sec =>
      unfold buildSecretVersionName at h
      dsimp only at h
      by_cases h1 : sec.name = ""
      · rw [if_pos h1] at h
        simp only [Step.mk.injEq] at h
        exact h.2.1.symm
      · rw [if_neg h1] at h
        by_cases h2 : ver = ""
        · rw [if_pos h2] at h
          simp only [Step.mk.injEq] at h
          exact h.2.1.symm
        · rw [if_neg h2] at h
          cases hl : List.lookup sec.name st.cache with
          | some parent =>
            rw [hl] at h
            cases h
          | none =>
            rw [hl] at h
            dsimp only at h
            cases hg : getSecret st sec.name with
            | mk res st1x c1 =>
              rw [hg] at h
              cases res with
              | error e1 =>
                simp only [Step.mk.injEq] at h
                rw [← h.2.1]
                exact (getSecret_err _ _ _ _ _ hg).1
              | ok rn => cases h

theorem build_no_panic (st : SvcState) (sec : Secret) (ver : String) :
    (buildSecretVersionName st (some ⟨some sec, ver⟩)).res ≠ Res.panic := by
  unfold buildSecretVersionName
  dsimp only
  by_cases h1 : sec.name = ""
  · rw [if_pos h1]
    simp
  · rw [if_neg h1]
    by_cases h2 : ver = ""
    · rw [if_pos h2]
      simp
    · rw [if_neg h2]
      cases hl : List.lookup sec.name st.cache with
      | some parent => simp
      | none =>
        dsimp only
        cases hg : getSecret st sec.name with
        | mk res st1 c =>
          cases res with
          | error e => simp
          | ok rn => simp

theorem Access_st_eq (st : SvcState) (sv : Option SecretVersion) :
    (Access st sv).st = (buildSecretVersionName st sv).st := by
  unfold Access
  cases hb : buildSecretVersionName st sv with
  | mk res st1 c =>
    cases res with
    | panic => rfl
    | err e => rfl
    | ok fn =>
      dsimp only
      cases st1.backend.accessSecretVersion fn with
      | none => rfl
      | some data => rfl

theorem put_cache_monotone (st : SvcState) (sec : Option Secret) (val : Bytes)
    (k : String) (h : (List.lookup k st.cache).isSome) :
    (List.lookup k (Put st sec val).st.cache).isSome := by
  unfold Put
  cases hv : validateNewSecret sec val with
  | some e => exact h
  | none =>
    cases sec with
    | none => exact h
    | some sec0 =>
      dsimp only
      cases hg : getSecret st sec0.name with
      | mk res st1 c =>
        cases res with
        | error e =>
          dsimp only
          rw [(getSecret_err _ _ _ _ _ hg).1]
          exact h
        | ok pn =>
          dsimp only
          have hst1 : st1 = { st with cache := (sec0.name, pn) :: st.cache } :=
            (getSecret_ok _ _ _ _ _ hg).2.2.1
          cases hadd : st1.backend.addSecretVersion pn val with
          | none =>
            rw [hst1]
            exact lookup_cons_isSome _ _ _ _ h
          | some pr =>
            obtain ⟨nm, b2⟩ := pr
            dsimp only
            rw [hst1]
            exact lookup_cons_isSome _ _ _ _ h

/-! The claims -/

/-- Claim C1 (code bug): `Put` for a valid secret whose backing container
does not exist does NOT create the container and then append a version, as
the claim (and the code's own comment "Creates a new secret if one doesn't
exist") states: it fails with an `Internal` error wrapping `getSecret`'s
`NotFound`, performs only the single `ListSecrets` lookup, and leaves the
whole state — containers, versions, cache — unchanged. -/
theorem put_missing_container_internal_error :
    Put stEmpty (some ⟨"db-pass"⟩) [115, 51]
      = ⟨.err ⟨.Internal, "error ensuring secret container exists", .notFound⟩,
          stEmpty, [.listSecrets]⟩ := by decide

/-- Claim C2 counterexample: after a first `Put` for "db-pass" the cache
does hold the resolution, yet the second `Put` for the same name still
issues a fresh `ListSecrets` backend call — `Put` never consults the
cache, refuting "the second of two Put calls ... does not issue a fresh
backend listing". -/
theorem second_put_lists_despite_cache_hit :
    List.lookup "db-pass" (Put stOne (some ⟨"db-pass"⟩) [1]).st.cache
        = some "projects/p/secrets/s1"
      ∧ BCall.listSecrets
          ∈ (Put (Put stOne (some ⟨"db-pass"⟩) [1]).st (some ⟨"db-pass"⟩) [2]).calls := by
  decide

/-- Claim C2 (amended): a resolution through `buildSecretVersionName` (the
`Access` path) of a name present in the cache returns the cached container
reference immediately, with no backend call and no state change; `Put`,
however, never consults the cache: every `Put` that passes validation
issues a fresh `ListSecrets` backend listing. -/
theorem cache_hit_no_list_but_put_always_lists :
    (∀ st sec ver parent, sec ≠ "" → ver ≠ "" →
        List.lookup sec st.cache = some parent →
        buildSecretVersionName st (some ⟨some ⟨sec⟩, ver⟩)
          = ⟨.ok (parent ++ "/versions/" ++ ver), st, []⟩)
    ∧ (∀ st sec val, validateNewSecret (some sec) val = none →
        BCall.listSecrets ∈ (Put st (some sec) val).calls) := by
  constructor
  · intro st sec ver parent hs hv hc
    unfold buildSecretVersionName
    dsimp only
    rw [if_neg hs, if_neg hv, hc]
  · intro st sec val hval
    unfold Put
    rw [hval]
    dsimp only
    cases hg : getSecret st sec.name with
    | mk res st1 c =>
      have hc : c = [.listSecrets] := by
        have h0 := getSecret_calls st sec.name
        rw [hg] at h0
        exact h0
      cases res with
      | error e =>
        dsimp only
        simp [hc]
      | ok pn =>
        dsimp only
        cases hadd : st1.backend.addSecretVersion pn val with
        | none => simp [hc]
        | some pr =>
          obtain ⟨nm, b2⟩ := pr
          dsimp only
          simp [hc]

/-- Witness for the amended C2 at concrete inputs. -/
theorem cache_hit_no_list_witness :
    buildSecretVersionName stOneCached (some ⟨some ⟨"db-pass"⟩, "17"⟩)
        = ⟨.ok ("projects/p/secrets/s1" ++ "/versions/" ++ "17"), stOneCached, []⟩
      ∧ BCall.listSecrets ∈ (Put stOne (some ⟨"db-pass"⟩) [1]).calls :=
  ⟨cache_hit_no_list_but_put_always_lists.1 stOneCached "db-pass" "17"
      "projects/p/secrets/s1" (by decide) (by decide) (by decide),
    cache_hit_no_list_but_put_always_lists.2 stOne ⟨"db-pass"⟩ [1] (by decide)⟩

/-- Claim C3: round-trip fidelity.  If `Put` of `val` succeeds (under a
well-formed provider, whose opaque version ids are non-empty and
slash-free), then `Access` of the returned `{name, version}` against the
resulting state succeeds and returns exactly `val`, untransformed. -/
theorem put_access_roundtrip (st : SvcState) (sec : Secret) (val : Bytes)
    (resp : SecretPutResponse) (st' : SvcState) (tr : List BCall)
    (hWF : st.backend.WF)
    (h : Put st (some sec) val = ⟨.ok resp, st', tr⟩) :
    Access st' (some ⟨some ⟨sec.name⟩, resp.secretVersion.version⟩)
      = ⟨.ok ⟨some ⟨some ⟨sec.name⟩, resp.secretVersion.version⟩, val⟩, st',
          [.accessSecretVersion]⟩ := by
  obtain ⟨sec0, parent, id, rest, hsec, hname, hval, hlok, hfirst, hids, hresp, hst, htr⟩ :=
    Put_ok_spec st (some sec) val resp st' tr h
  injection hsec with hsec
  subst hsec
  obtain ⟨hid_ne, hid_slash⟩ := hWF id (hids ▸ List.mem_cons_self id rest)
  have hseg : lastSegment (parent ++ "/versions/" ++ id) = id :=
    lastSegment_versions parent id hid_slash
  subst hresp
  subst hst
  dsimp only
  rw [hseg]
  have hb : buildSecretVersionName
      { st with
          cache := (sec.name, parent) :: st.cache,
          backend := { st.backend with
            versions := (parent ++ "/versions/" ++ id, val) :: st.backend.versions,
            versionIds := rest } }
      (some ⟨some ⟨sec.name⟩, id⟩)
      = ⟨.ok (parent ++ "/versions/" ++ id),
          { st with
            cache := (sec.name, parent) :: st.cache,
            backend := { st.backend with
              versions := (parent ++ "/versions/" ++ id, val) :: st.backend.versions,
              versionIds := rest } }, []⟩ := by
    unfold buildSecretVersionName
    dsimp only
    rw [if_neg hname, if_neg hid_ne]
    simp [List.lookup]
  unfold Access
  rw [hb]
  dsimp only
  have hacc : Backend.accessSecretVersion
      { st.backend with
        versions := (parent ++ "/versions/" ++ id, val) :: st.backend.versions,
        versionIds := rest } (parent ++ "/versions/" ++ id) = some val := by
    unfold Backend.accessSecretVersion
    simp [List.lookup]
  rw [hacc]
  simp

/-- Witness for C3 at concrete inputs. -/
theorem put_access_roundtrip_witness :
    Access stOnePut (some ⟨some ⟨"db-pass"⟩, "17"⟩)
      = ⟨.ok ⟨some ⟨some ⟨"db-pass"⟩, "17"⟩, [115, 51]⟩, stOnePut,
          [.accessSecretVersion]⟩ :=
  put_access_roundtrip stOne ⟨"db-pass"⟩ [115, 51] ⟨⟨some ⟨"db-pass"⟩, "17"⟩⟩
    stOnePut [.listSecrets, .addSecretVersion]
    (by unfold Backend.WF; decide) (by decide)

/-- Claim C4 (amended): `Access` of a non-empty name and version whose
container lookup returns zero results fails, and the error kind returned
to the caller is `InvalidArgument` — not `Internal` — because `Access`
wraps every `buildSecretVersionName` failure, including the internal
`NotFound`, as `InvalidArgument`. -/
theorem access_unknown_secret_invalid_argument (st : SvcState) (n v : String)
    (hn : n ≠ "") (hv : v ≠ "")
    (hc : List.lookup n st.cache = none)
    (hl : st.backend.listOk = true)
    (hz : st.backend.listSecretsFirst n st.stackName = none) :
    Access st (some ⟨some ⟨n⟩, v⟩)
      = ⟨.err ⟨.InvalidArgument, "invalid secret version", .notFound⟩, st,
          [.listSecrets]⟩ := by
  have hg : getSecret st n = ⟨.error .notFound, st, [.listSecrets]⟩ := by
    unfold getSecret
    rw [hl, hz]
    rw [if_pos rfl]
  have hb : buildSecretVersionName st (some ⟨some ⟨n⟩, v⟩)
      = ⟨.err .notFound, st, [.listSecrets]⟩ := by
    unfold buildSecretVersionName
    dsimp only
    rw [if_neg hn, if_neg hv, hc, hg]
  unfold Access
  rw [hb]

/-- Claim C4 counterexample: on an empty deployment, accessing the unknown
secret ("db-pass", version "1") yields error kind `InvalidArgument`, which
is not the `Internal` kind the claim states. -/
theorem access_unknown_secret_counterexample :
    (Access stEmpty (some ⟨some ⟨"db-pass"⟩, "1"⟩)).res
        = .err ⟨.InvalidArgument, "invalid secret version", .notFound⟩
      ∧ (⟨.InvalidArgument, "invalid secret version", .notFound⟩ : PErr).code
          ≠ .Internal := by
  decide

/-- Witness for the amended C4 at concrete inputs. -/
theorem access_unknown_secret_witness :
    Access stEmpty (some ⟨some ⟨"x"⟩, "1"⟩)
      = ⟨.err ⟨.InvalidArgument, "invalid secret version", .notFound⟩, stEmpty,
          [.listSecrets]⟩ :=
  access_unknown_secret_invalid_argument stEmpty "x" "1" (by decide) (by decide)
    (by decide) (by decide) (by decide)

/-- Claim C5: `Put` with a nil secret, a blank name, or an empty value
fails with `InvalidArgument`, leaves the state untouched, and performs
zero backend calls. -/
theorem put_validation_rejects_before_io (st : SvcState) (sec : Option Secret)
    (val : Bytes) (h : sec = none ∨ sec = some ⟨""⟩ ∨ val = []) :
    ∃ g, Put st sec val
      = ⟨.err ⟨.InvalidArgument, "invalid secret", g⟩, st, []⟩ := by
  have hval : ∃ g, validateNewSecret sec val = some g := by
    rcases h with h | h | h
    · subst h
      exact ⟨.nilSecret, rfl⟩
    · subst h
      exact ⟨.blankSecretName, by simp [validateNewSecret]⟩
    · subst h
      cases sec with
      | none => exact ⟨.nilSecret, rfl⟩
      | some s =>
        by_cases hn : s.name = ""
        · exact ⟨.blankSecretName, by simp [validateNewSecret, hn]⟩
        · exact ⟨.blankSecretValue, by simp [validateNewSecret, hn]⟩
  obtain ⟨g, hg⟩ := hval
  refine ⟨g, ?_⟩
  unfold Put
  rw [hg]

/-- Witness for C5 at a concrete input. -/
theorem put_validation_witness :
    ∃ g, Put stEmpty none [1]
      = ⟨.err ⟨.InvalidArgument, "invalid secret", g⟩, stEmpty, []⟩ :=
  put_validation_rejects_before_io stEmpty none [1] (Or.inl rfl)

/-- Claim C6: `Access` with a blank name or a blank version fails with
`InvalidArgument`, leaves the state untouched, and performs zero backend
calls. -/
theorem access_validation_rejects_before_io (st : SvcState) (sec : Secret)
    (v : String) (h : sec.name = "" ∨ v = "") :
    ∃ g, Access st (some ⟨some sec, v⟩)
      = ⟨.err ⟨.InvalidArgument, "invalid secret version", g⟩, st, []⟩ := by
  have hb : ∃ g, buildSecretVersionName st (some ⟨some sec, v⟩)
      = ⟨.err g, st, []⟩ := by
    by_cases hn : sec.name = ""
    · refine ⟨.blankName, ?_⟩
      unfold buildSecretVersionName
      dsimp only
      rw [if_pos hn]
    · rcases h with h | h
      · exact absurd h hn
      · refine ⟨.blankVersion, ?_⟩
        unfold buildSecretVersionName
        dsimp only
        rw [if_neg hn, if_pos h]
  obtain ⟨g, hg⟩ := hb
  refine ⟨g, ?_⟩
  unfold Access
  rw [hg]

/-- Witness for C6 at a concrete input. -/
theorem access_validation_witness :
    ∃ g, Access stEmpty (some ⟨some ⟨""⟩, "1"⟩)
      = ⟨.err ⟨.InvalidArgument, "invalid secret version", g⟩, stEmpty, []⟩ :=
  access_validation_rejects_before_io stEmpty ⟨""⟩ "1" (Or.inl rfl)

/-- Claim C7: the resolution cache grows monotonically.  (1)/(2): `Put` and
`Access` preserve the presence of every existing cache key (nothing is
evicted or invalidated).  (3): a successful resolution (`getSecret`, the
path shared by `Put` and by `Access`'s cache miss) inserts exactly the
resolved entry.  (4): a failed resolution changes nothing.  (5): an
`Access` failing with `InvalidArgument` — the wrapping of every resolution
failure, unknown names included — has no side effects on the state. -/
theorem cache_monotone_insert_on_success :
    (∀ st sec val k, (List.lookup k st.cache).isSome →
        (List.lookup k (Put st sec val).st.cache).isSome)
    ∧ (∀ st sv k, (List.lookup k st.cache).isSome →
        (List.lookup k (Access st sv).st.cache).isSome)
    ∧ (∀ st n rn st1 c, getSecret st n = ⟨.ok rn, st1, c⟩ →
        st1.cache = (n, rn) :: st.cache ∧ List.lookup n st1.cache = some rn)
    ∧ (∀ st n e st1 c, getSecret st n = ⟨.error e, st1, c⟩ → st1 = st)
    ∧ (∀ st sv m g, (Access st sv).res = .err ⟨.InvalidArgument, m, g⟩ →
        (Access st sv).st = st) := by
  refine ⟨put_cache_monotone, ?_, ?_, ?_, ?_⟩
  · intro st sv k h
    rw [Access_st_eq]
    exact build_cache_monotone st sv k h
  · intro st n rn st1 c h
    have h1 := (getSecret_ok _ _ _ _ _ h).2.2.1
    constructor
    · rw [h1]
    · rw [h1]
      simp [List.lookup]
  · intro st n e st1 c h
    exact (getSecret_err _ _ _ _ _ h).1
  · intro st sv m g h
    rw [Access_st_eq]
    unfold Access at h
    cases hb : buildSecretVersionName st sv with
    | mk res st1 c =>
      rw [hb] at h
      cases res with
      | panic => simp at h
      | err e => exact build_err_st st sv e st1 c hb
      | ok fn =>
        dsimp only at h
        cases hacc : st1.backend.accessSecretVersion fn with
        | none =>
          rw [hacc] at h
          simp at h
        | some data =>
          rw [hacc] at h
          simp at h

/-- Witness for C7 at concrete inputs. -/
theorem cache_monotone_witness :
    (List.lookup "a" (Put stOneExtra (some ⟨"db-pass"⟩) [1]).st.cache).isSome
    ∧ (List.lookup "a"
        (Access stOneExtra (some ⟨some ⟨"db-pass"⟩, "17"⟩)).st.cache).isSome
    ∧ (stOneCached.cache = ("db-pass", "projects/p/secrets/s1") :: stOne.cache
        ∧ List.lookup "db-pass" stOneCached.cache
            = some "projects/p/secrets/s1")
    ∧ stEmpty = stEmpty
    ∧ (Access stEmpty (some ⟨some ⟨"x"⟩, "1"⟩)).st = stEmpty :=
  ⟨cache_monotone_insert_on_success.1 stOneExtra (some ⟨"db-pass"⟩) [1] "a"
      (by decide),
    cache_monotone_insert_on_success.2.1 stOneExtra
      (some ⟨some ⟨"db-pass"⟩, "17"⟩) "a" (by decide),
    cache_monotone_insert_on_success.2.2.1 stOne "db-pass"
      "projects/p/secrets/s1" stOneCached [.listSecrets] rfl,
    cache_monotone_insert_on_success.2.2.2.1 stEmpty "x" .notFound stEmpty
      [.listSecrets] rfl,
    cache_monotone_insert_on_success.2.2.2.2 stEmpty
      (some ⟨some ⟨"x"⟩, "1"⟩) "invalid secret version" .notFound rfl⟩

/-- Claim C8: `Access` with a nil `SecretVersion`, or a nil inner `Secret`,
panics (the nil dereference in `buildSecretVersionName`'s first statement)
with no error value, no backend call and no state change; with both
non-nil it never panics. -/
theorem access_nil_panics :
    (∀ st v, Access st none = ⟨.panic, st, []⟩
        ∧ Access st (some ⟨none, v⟩) = ⟨.panic, st, []⟩)
    ∧ (∀ st sv, (∃ sec, sv.secret = some sec) →
        (Access st (some sv)).res ≠ .panic) := by
  constructor
  · intro st v
    exact ⟨rfl, rfl⟩
  · intro st sv hsec
    obtain ⟨osec, ver⟩ := sv
    obtain ⟨sec, hsec⟩ := hsec
    dsimp only at hsec
    subst hsec
    unfold Access
    cases hb : buildSecretVersionName st (some ⟨some sec, ver⟩) with
    | mk res st1 c =>
      cases res with
      | panic =>
        have := build_no_panic st sec ver
        rw [hb] at this
        exact absurd rfl this
      | err e => simp
      | ok fn =>
        dsimp only
        cases st1.backend.accessSecretVersion fn with
        | none => simp
        | some data => simp

/-- Witness for C8 at concrete inputs. -/
theorem access_nil_witness :
    Access stEmpty none = ⟨.panic, stEmpty, []⟩
      ∧ (Access stEmpty (some ⟨some ⟨"x"⟩, "1"⟩)).res ≠ .panic :=
  ⟨(access_nil_panics.1 stEmpty "1").1,
    access_nil_panics.2 stEmpty ⟨some ⟨"x"⟩, "1"⟩ ⟨⟨"x"⟩, rfl⟩⟩

/-- Claim C10: a successful `Put`'s response is exactly
`{secret := {name}, version := trailing path segment of the resource name
the backend's create-version call returned}` — the version is the
substring after the last '/', and no other metadata is echoed back. -/
theorem put_version_is_trailing_segment (st : SvcState) (sec : Option Secret)
    (val : Bytes) (resp : SecretPutResponse) (st' : SvcState) (tr : List BCall)
    (h : Put st sec val = ⟨.ok resp, st', tr⟩) :
    ∃ sec0 parent verName b2,
      sec = some sec0
      ∧ (getSecret st sec0.name).res = .ok parent
      ∧ st.backend.addSecretVersion parent val = some (verName, b2)
      ∧ resp = ⟨⟨some ⟨sec0.name⟩, afterLastSlashStr verName⟩⟩ := by
  obtain ⟨sec0, parent, id, rest, hsec, hname, hval, hlok, hfirst, hids, hresp, hst, htr⟩ :=
    Put_ok_spec st sec val resp st' tr h
  refine ⟨sec0, parent, parent ++ "/versions/" ++ id,
    { st.backend with
      versions := (parent ++ "/versions/" ++ id, val) :: st.backend.versions,
      versionIds := rest }, hsec, ?_, ?_, ?_⟩
  · rw [getSecret_eq_ok st sec0.name parent hlok hfirst]
  · exact addSecretVersion_eq st.backend parent val id rest hids
  · rw [hresp, lastSegment_eq_afterLastSlashStr]

/-- Witness for C10 at concrete inputs. -/
theorem put_version_witness :
    ∃ sec0 parent verName b2,
      (some ⟨"db-pass"⟩ : Option Secret) = some sec0
      ∧ (getSecret stOne sec0.name).res = .ok parent
      ∧ stOne.backend.addSecretVersion parent [115, 51] = some (verName, b2)
      ∧ (⟨⟨some ⟨"db-pass"⟩, "17"⟩⟩ : SecretPutResponse)
          = ⟨⟨some ⟨sec0.name⟩, afterLastSlashStr verName⟩⟩ :=
  put_version_is_trailing_segment stOne (some ⟨"db-pass"⟩) [115, 51]
    ⟨⟨some ⟨"db-pass"⟩, "17"⟩⟩ stOnePut [.listSecrets, .addSecretVersion]
    (by decide)

end SecretManager
